import Mathlib

/-!
Verification development for the dealer-locator scraping pipelines
(`scrape_buyers_dealers.py` and `scrape_western_dealers.py`).

The Python code is shallowly embedded: pure record-manipulating functions
become Lean functions over `String`, `List` and a `Json` value tree.
External collaborators (pandas CSV reading, Playwright, requests,
BeautifulSoup, the spreadsheet writer and the standard-library JSON
encoder) are modelled at their interface boundary, exactly as the spec
declares them out of scope.
-/

/-! ## String normalization helpers

`normalize_whitespace(s) = re.sub(r"\s+", " ", (s or "").strip())` and the
dedup normalizer `re.sub(r"[^A-Z0-9]+", "", s.upper())`, both identical in
the two pipeline files.  Python `str.strip()` and `\s` are modelled with
the ASCII whitespace characters; `str.upper()`/`str.lower()` with the
ASCII case maps. -/

/-- The whitespace characters recognized by `str.strip()` / regex `\s`
(ASCII model). -/
def isPySpace (c : Char) : Bool :=
  c = ' ' || c = '\t' || c = '\n' || c = '\r' || c = '\x0b' || c = '\x0c'

/-- Strip leading and trailing whitespace from a character list
(`str.strip()`). -/
def stripL (l : List Char) : List Char :=
  ((l.dropWhile isPySpace).reverse.dropWhile isPySpace).reverse

/-- Collapse every maximal run of whitespace to a single space
(`re.sub(r"\s+", " ", _)` applied to an already stripped string): inside a
run every whitespace character but the last is dropped, and the last is
emitted as a single space. -/
def collapseWs : List Char → List Char
  | [] => []
  | [c] => if isPySpace c then [' '] else [c]
  | c :: c2 :: rest =>
    if isPySpace c then
      if isPySpace c2 then collapseWs (c2 :: rest)
      else ' ' :: collapseWs (c2 :: rest)
    else c :: collapseWs (c2 :: rest)

/-- Python `str.strip()` on strings. -/
def pyStrip (s : String) : String := String.mk (stripL s.toList)

/-- The `normalize_whitespace` helper from both pipeline files. -/
def normWs (s : String) : String := String.mk (collapseWs (stripL s.toList))

/-- Python `str.lower()` (ASCII model), character by character. -/
def strLower (s : String) : String := String.mk (s.toList.map Char.toLower)

/-- Python `str.upper()` (ASCII model), character by character. -/
def strUpper (s : String) : String := String.mk (s.toList.map Char.toUpper)

/-- Is `c` one of `A`-`Z` or `0`-`9`? -/
def isUpperDigit (c : Char) : Bool :=
  ('A' ≤ c && c ≤ 'Z') || ('0' ≤ c && c ≤ '9')

/-- The dedup-key normalizer `re.sub(r"[^A-Z0-9]+", "", s.upper())` used by
`dedupe_dealers` in both pipeline files. -/
def normKey (s : String) : String :=
  String.mk ((s.toList.map Char.toUpper).filter isUpperDigit)

/-! ## The Dealer record (identical `@dataclass` in both files) -/

/-- The canonical dealer record produced by both pipelines. -/
structure Dealer where
  dealer_name : String
  country : String
  state : String
  address : String
  phone : String
  email : String := ""
deriving DecidableEq, Repr

/-- US state abbreviations (`US_STATE_CODES` in both files). -/
def US_STATE_CODES : List String :=
  ["AL", "AK", "AZ", "AR", "CA", "CO", "CT", "DE", "DC", "FL", "GA", "HI",
   "ID", "IL", "IN", "IA", "KS", "KY", "LA", "ME", "MD", "MA", "MI", "MN",
   "MS", "MO", "MT", "NE", "NV", "NH", "NJ", "NM", "NY", "NC", "ND", "OH",
   "OK", "OR", "PA", "RI", "SC", "SD", "TN", "TX", "UT", "VT", "VA", "WA",
   "WV", "WI", "WY", "PR"]

/-- Canadian province abbreviations (`CA_PROVINCE_CODES` in both files). -/
def CA_PROVINCE_CODES : List String :=
  ["AB", "BC", "MB", "NB", "NL", "NS", "NT", "NU", "ON", "PE", "QC", "SK", "YT"]

/-! ## Dedup engine

Both `dedupe_dealers` functions run the same first-seen loop over a `seen`
set of key strings; they differ only in the key they compute.  The Python
`set` of keys is modelled as the list of keys inserted so far (membership
is all that is used). -/

/-- Dedup key of `scrape_buyers_dealers.dedupe_dealers`:
`f"{d.country}|{norm(d.state)}|{norm(d.address)}|{norm(d.dealer_name)}|{norm(d.phone)}"`.
Note that `country` is interpolated raw, without `norm`. -/
def buyersKey (d : Dealer) : String :=
  d.country ++ "|" ++ normKey d.state ++ "|" ++ normKey d.address ++ "|" ++
    normKey d.dealer_name ++ "|" ++ normKey d.phone

/-- Dedup key of `scrape_western_dealers.dedupe_dealers`:
`f"{d.country}|{d.state}|{addr}|{name}"` where only `addr` and `name` are
normalized; `country` and `state` are interpolated raw. -/
def westernKey (d : Dealer) : String :=
  d.country ++ "|" ++ d.state ++ "|" ++ normKey d.address ++ "|" ++
    normKey d.dealer_name

/-- The first-seen loop shared by both `dedupe_dealers` functions:
`seen` holds the keys already emitted; a record whose key is in `seen` is
skipped, otherwise it is appended and its key added to `seen`. -/
def dedupeGo (key : Dealer → String) (seen : List String) :
    List Dealer → List Dealer
  | [] => []
  | d :: ds =>
    if key d ∈ seen then dedupeGo key seen ds
    else d :: dedupeGo key (key d :: seen) ds

namespace Buyers

/-- Embedding of `dedupe_dealers` from `scrape_buyers_dealers.py` (lines 407-419). -/
def dedupe_dealers (dealers : List Dealer) : List Dealer :=
  dedupeGo buyersKey [] dealers

end Buyers

namespace Western

/-- Embedding of `dedupe_dealers` from `scrape_western_dealers.py` (lines 379-397). -/
def dedupe_dealers (dealers : List Dealer) : List Dealer :=
  dedupeGo westernKey [] dealers

end Western

/-- Specification-side restatement of the dedup contract, written from the
spec's words: the first record of the input is retained, every later
record bearing its key is dropped, and the rest is deduplicated
recursively — i.e. exactly the first record observed per key, in
first-seen order. -/
def firstSeenSpec (key : Dealer → String) : List Dealer → List Dealer
  | [] => []
  | d :: ds => d :: firstSeenSpec key (ds.filter (fun e => key e != key d))
termination_by l => l.length
decreasing_by
  simp only [List.length_cons]
  exact Nat.lt_succ_of_le (List.length_filter_le _ _)

/-! ## JSON value model (buyers pipeline)

Captured network responses are JSON trees: mappings, sequences, strings,
numbers, booleans and null.  Python `str(val)` on an `int` prints the
decimal numeral and on a `bool` prints `True`/`False` (a `bool` is an
`int` for `isinstance`); numbers are modelled as integers. -/

inductive Json where
  | obj : List (String × Json) → Json
  | arr : List Json → Json
  | str : String → Json
  | int : Int → Json
  | bool : Bool → Json
  | null : Json

/-- Does the mapping have a key whose lower-casing is `k` (`k` given
already lower-case)?  Models membership in `{k.lower() for k in d.keys()}`. -/
def hasKeyLower (kvs : List (String × Json)) (k : String) : Bool :=
  kvs.any (fun p => strLower p.1 == k)

/-- Name-like keys probed by `looks_like_dealer_dict` (lower-cased). -/
def nameKeyList : List String :=
  ["name", "dealername", "locationname", "company", "title"]

/-- Direct address keys probed by `looks_like_dealer_dict` (lower-cased). -/
def addrKeyList : List String :=
  ["address", "address1", "street", "street1", "line1"]

/-- Embedding of `looks_like_dealer_dict` from `scrape_buyers_dealers.py` (lines 308-318):
a mapping looks like a dealer if it has a name-ish key and either a direct
address-ish key or city + (state|province) + (zip|postal|postalcode). -/
def looks_like_dealer_dict (kvs : List (String × Json)) : Bool :=
  nameKeyList.any (hasKeyLower kvs) &&
  (addrKeyList.any (hasKeyLower kvs) ||
    (hasKeyLower kvs "city" &&
      (hasKeyLower kvs "state" || hasKeyLower kvs "province") &&
      (hasKeyLower kvs "zip" || hasKeyLower kvs "postal" ||
        hasKeyLower kvs "postalcode")))

mutual

/-- Embedding of `walk_json` from `scrape_buyers_dealers.py` (lines 321-329): pre-order
walk appending every mapping satisfying `looks_like_dealer_dict`, then
recursing into the mapping's values (resp. the sequence's items). -/
def walkJson : Json → List (List (String × Json))
  | .obj kvs =>
    (if looks_like_dealer_dict kvs then [kvs] else []) ++ walkPairs kvs
  | .arr xs => walkList xs
  | .str _ => []
  | .int _ => []
  | .bool _ => []
  | .null => []
termination_by structural j => j

def walkPairs : List (String × Json) → List (List (String × Json))
  | [] => []
  | kv :: rest => walkJson kv.2 ++ walkPairs rest
termination_by structural l => l

def walkList : List Json → List (List (String × Json))
  | [] => []
  | x :: rest => walkJson x ++ walkList rest
termination_by structural l => l

end

mutual

/-- Specification-side helper: the pre-order list of all nested mappings of
a JSON tree (each mapping itself, then the mappings below it). -/
def subMaps : Json → List (List (String × Json))
  | .obj kvs => kvs :: subMapsPairs kvs
  | .arr xs => subMapsList xs
  | .str _ => []
  | .int _ => []
  | .bool _ => []
  | .null => []
termination_by structural j => j

def subMapsPairs : List (String × Json) → List (List (String × Json))
  | [] => []
  | kv :: rest => subMaps kv.2 ++ subMapsPairs rest
termination_by structural l => l

def subMapsList : List Json → List (List (String × Json))
  | [] => []
  | x :: rest => subMaps x ++ subMapsList rest
termination_by structural l => l

end

/-! ## Field lookup and record construction (buyers pipeline) -/

/-- The key lookup of `extract_dealers_from_json_blobs`:
`lk = {k.lower(): k for k in d.keys()}` keeps the last original key per
lower-cased spelling, and `d.get(lk[nm.lower()])` returns its value; so
the last pair whose key lower-cases like `nm` wins. -/
def lkFind (kvs : List (String × Json)) (nm : String) : Option Json :=
  (kvs.reverse.find? (fun p => strLower p.1 == strLower nm)).map (fun p => p.2)

/-- Python `str(val)` for the scalar values accepted by `get_any`
(`isinstance(val, (str, int, float))`; a Python `bool` is an `int`). -/
def scalarStr : Json → Option String
  | .str s => some s
  | .int n => some (toString n)
  | .bool b => some (if b then "True" else "False")
  | _ => none

/-- One iteration of the `get_any` loop body for alias `nm`: the stripped
scalar value stored under `nm` when it is non-empty, else nothing. -/
def getAnyStep (kvs : List (String × Json)) (nm : String) : Option String :=
  match lkFind kvs nm with
  | none => none
  | some v =>
    match scalarStr v with
    | none => none
    | some s => if pyStrip s = "" then none else some (pyStrip s)

/-- The lookup `get_any(*names)` inside `extract_dealers_from_json_blobs` (lines
345-357): first alias that resolves to a scalar whose stripped string is
non-empty wins; otherwise the empty string. -/
def getAny (kvs : List (String × Json)) : List String → String
  | [] => ""
  | nm :: rest =>
    match getAnyStep kvs nm with
    | none => getAny kvs rest
    | some s => s

/-- Accepted aliases for each canonical field (lines 359-370). -/
def nameAliases : List String :=
  ["name", "dealerName", "locationName", "company", "title"]

def line1Aliases : List String :=
  ["address", "address1", "street", "street1", "line1"]

def line2Aliases : List String := ["address2", "street2", "line2"]

def cityAliases : List String := ["city", "town"]

def stateAliases : List String :=
  ["state", "province", "region", "stateCode", "provinceCode"]

def postalAliases : List String :=
  ["zip", "zipCode", "postal", "postalCode", "postcode"]

def countryAliases : List String := ["country", "countryCode"]

def phoneAliases : List String := ["phone", "phoneNumber", "telephone", "tel"]

/-- The per-mapping body of the extraction loop in
`extract_dealers_from_json_blobs` (lines 341-402): resolve each field
through its aliases, skip the mapping if the name is empty, compose the
single-line address, normalize country and state, and build the Dealer. -/
def extractDealerFromDict (kvs : List (String × Json)) : Option Dealer :=
  let name := getAny kvs nameAliases
  if name = "" then none
  else
    let line1 := getAny kvs line1Aliases
    let line2 := getAny kvs line2Aliases
    let city := getAny kvs cityAliases
    let state := getAny kvs stateAliases
    let postal := getAny kvs postalAliases
    let country := getAny kvs countryAliases
    let phone := getAny kvs phoneAliases
    let cityState :=
      if city ≠ "" ∧ state ≠ "" then city ++ ", " ++ state
      else if city ≠ "" then city else state
    let cityStatePostal :=
      normWs (String.intercalate " "
        (([cityState, postal]).filter (fun x => x != "")))
    let address :=
      normWs (String.intercalate ", "
        (([line1, line2, cityStatePostal]).filter (fun x => x != "")))
    let c0 := strUpper (pyStrip country)
    let c1 := if c0 = "UNITED STATES" ∨ c0 = "USA" then "US" else c0
    let c2 := if c1 = "CANADA" then "CA" else c1
    let c := if c2 = "US" ∨ c2 = "CA" then c2 else ""
    let stUp := strUpper (pyStrip state)
    let st := if stUp.length = 2 then stUp else pyStrip state
    some
      { dealer_name := normWs name
        country := c
        state := st
        address := address
        phone := normWs phone
        email := "" }

/-- Embedding of `extract_dealers_from_json_blobs` from `scrape_buyers_dealers.py`
(lines 332-404): walk every blob collecting dealer-like mappings, then map
each to a Dealer, silently skipping those without a name. -/
def extract_dealers_from_json_blobs (blobs : List Json) : List Dealer :=
  ((blobs.map walkJson).flatten).filterMap extractDealerFromDict

/-! ## Geography normalizer (western pipeline, lines 270-295)

The three `re.search` calls of `guess_country_and_state_from_address` are
embedded as executable scanners over the character list of the
upper-cased, whitespace-normalized address.  `re.search` tries every start
position from the left; for these patterns greedy matching with
backtracking is deterministic (after a `\s*`/`\s+` the next required
character class excludes whitespace), so a direct scan is faithful,
including the leftmost-match rule used for the capture groups. -/

/-- Regex word characters (`\w` over the ASCII model), for `\b`. -/
def isWordChar (c : Char) : Bool :=
  ('A' ≤ c && c ≤ 'Z') || ('a' ≤ c && c ≤ 'z') || ('0' ≤ c && c ≤ '9') ||
    c == '_'

/-- The class `[ABCEGHJ-NPRSTVXY]` (valid first letters of a Canadian
postal code). -/
def caLetter1 (c : Char) : Bool := ("ABCEGHJKLMNPRSTVXY".toList).contains c

/-- The class `[ABCEGHJ-NPRSTV-Z]`. -/
def caLetter2 (c : Char) : Bool := ("ABCEGHJKLMNPRSTVWXYZ".toList).contains c

/-- The class `[A-Z]`. -/
def isUpperAZ (c : Char) : Bool := 'A' ≤ c && c ≤ 'Z'

/-- Boundary `\b` before the match: the previous character (if any) is not a word
character (every pattern here starts with a word character). -/
def boundaryOK : Option Char → Bool
  | none => true
  | some c => !(isWordChar c)

/-- Boundary `\b` after the match: the next character (if any) is not a word
character (every pattern here ends with a word character). -/
def boundAfter : List Char → Bool
  | [] => true
  | c :: _ => !(isWordChar c)

/-- The trailing `\d[ABCEGHJ-NPRSTV-Z]\d\b` of the Canadian pattern. -/
def caTail : List Char → Bool
  | d1 :: l2 :: d2 :: rest =>
    d1.isDigit && caLetter2 l2 && d2.isDigit && boundAfter rest
  | _ => false

/-- Does `[ABCEGHJ-NPRSTVXY]\d[ABCEGHJ-NPRSTV-Z][ -]?\d[ABCEGHJ-NPRSTV-Z]\d\b`
match at the head of the list? -/
def caAt : List Char → Bool
  | c1 :: c2 :: c3 :: rest =>
    caLetter1 c1 && c2.isDigit && caLetter2 c3 &&
    ((match rest with
      | c4 :: rest2 => (c4 == ' ' || c4 == '-') && caTail rest2
      | [] => false) ||
     caTail rest)
  | _ => false

/-- Scan (`re.search`) for the Canadian postal-code pattern: try every start
position, tracking the previous character for the leading `\b`. -/
def caScan (prev : Option Char) : List Char → Bool
  | [] => false
  | c :: rest => (boundaryOK prev && caAt (c :: rest)) || caScan (some c) rest

/-- One attempt of `,\s*([A-Z]{2})\s+[ABCEGHJ-NPRSTVXY]\d` at the head of
the list, returning the captured group. -/
def provAt : List Char → Option String
  | c :: rest =>
    if c == ',' then
      match rest.dropWhile isPySpace with
      | g1 :: g2 :: r2 =>
        if isUpperAZ g1 && isUpperAZ g2 then
          match r2 with
          | c2 :: r3 =>
            if isPySpace c2 then
              match r3.dropWhile isPySpace with
              | d1 :: d2 :: _ =>
                if caLetter1 d1 && d2.isDigit then some (String.mk [g1, g2])
                else none
              | _ => none
            else none
          | [] => none
        else none
      | _ => none
    else none
  | [] => none

/-- Scan for `,` then spaces, two capitals, spaces and a postal start: leftmost
match wins. -/
def provScan : List Char → Option String
  | [] => none
  | c :: rest =>
    match provAt (c :: rest) with
    | some g => some g
    | none => provScan rest

/-- The optional `(?:-\d{4})?` continuation followed by `\b`. -/
def plusFour : List Char → Bool
  | c :: e1 :: e2 :: e3 :: e4 :: rest =>
    c == '-' && e1.isDigit && e2.isDigit && e3.isDigit && e4.isDigit &&
      boundAfter rest
  | _ => false

/-- Does `\b(\d{5})(?:-\d{4})?\b` match at the head of the list (boundary
before checked by the caller)? -/
def usZipAt : List Char → Bool
  | d1 :: d2 :: d3 :: d4 :: d5 :: rest =>
    d1.isDigit && d2.isDigit && d3.isDigit && d4.isDigit && d5.isDigit &&
      (plusFour rest || boundAfter rest)
  | _ => false

/-- Scan for the US ZIP pattern with word boundaries, as a Bool. -/
def usZipScan (prev : Option Char) : List Char → Bool
  | [] => false
  | c :: rest =>
    (boundaryOK prev && usZipAt (c :: rest)) || usZipScan (some c) rest

/-- One attempt of `,\s*([A-Z]{2})\s+\d{5}\b` at the head of the list. -/
def usStateAt : List Char → Option String
  | c :: rest =>
    if c == ',' then
      match rest.dropWhile isPySpace with
      | g1 :: g2 :: r2 =>
        if isUpperAZ g1 && isUpperAZ g2 then
          match r2 with
          | c2 :: r3 =>
            if isPySpace c2 then
              match r3.dropWhile isPySpace with
              | d1 :: d2 :: d3 :: d4 :: d5 :: r4 =>
                if d1.isDigit && d2.isDigit && d3.isDigit && d4.isDigit &&
                    d5.isDigit && boundAfter r4
                then some (String.mk [g1, g2]) else none
              | _ => none
            else none
          | [] => none
        else none
      | _ => none
    else none
  | [] => none

/-- Scan for `,` then spaces, two capitals, spaces and five digits: leftmost match wins. -/
def usStateScan : List Char → Option String
  | [] => none
  | c :: rest =>
    match usStateAt (c :: rest) with
    | some g => some g
    | none => usStateScan rest

/-- The preprocessed address `a = normalize_whitespace(address).upper()`. -/
def prepAddr (address : String) : String := strUpper (normWs address)

/-- Embedding of `guess_country_and_state_from_address` from `scrape_western_dealers.py`
(lines 270-295): Canadian postal pattern first, then US ZIP pattern, with
the state/province taken from the comma-anchored capture when it belongs
to the known code set. -/
def guess_country_and_state_from_address (address : String) : String × String :=
  let cs := (prepAddr address).toList
  if caScan none cs then
    match provScan cs with
    | some p => if p ∈ CA_PROVINCE_CODES then ("CA", p) else ("CA", "")
    | none => ("CA", "")
  else if usZipScan none cs then
    match usStateScan cs with
    | some st => if st ∈ US_STATE_CODES then ("US", st) else ("US", "")
    | none => ("US", "")
  else ("", "")

/-! ## Western detail-page parser (lines 336-376)

`requests` and BeautifulSoup are external collaborators; a fetch attempt
is modelled by its outcome (a raised network error, or a status code and
the page as seen through the soup queries the parser performs: the `h1`
text if an `h1` exists, the label-anchored scan results for `Address:` and
`Phone:`, and the text of a `tel:` link if one exists). -/

structure PageModel where
  h1Text : Option String
  addressLabelText : String
  phoneLabelText : String
  telLinkText : Option String

inductive FetchOutcome where
  | netError : FetchOutcome
  | response : Nat → PageModel → FetchOutcome

/-- Embedding of `parse_western_dealer_page`: `None` on a network error or non-200
status; `None` when the primary heading is missing or blank; otherwise a
Dealer with country/state inferred from the address text. -/
def parse_western_dealer_page : FetchOutcome → Option Dealer
  | .netError => none
  | .response status page =>
    if status ≠ 200 then none
    else
      let dealer_name :=
        match page.h1Text with
        | some t => normWs t
        | none => ""
      if dealer_name = "" then none
      else
        let phone0 :=
          if page.phoneLabelText ≠ "" then page.phoneLabelText
          else
            match page.telLinkText with
            | some t => normWs t
            | none => ""
        let address := normWs page.addressLabelText
        let phone := normWs phone0
        let cs := guess_country_and_state_from_address address
        some
          { dealer_name := dealer_name
            country := cs.1
            state := cs.2
            address := address
            phone := phone
            email := "" }

/-- The gathering loop of `main` (lines 464-469): each completed future
contributes its record when one was produced. -/
def collectParsed (rs : List FetchOutcome) : List Dealer :=
  rs.filterMap parse_western_dealer_page

/-! ## Resumable cache (western pipeline, lines 194-200 and 253-259)

`checkpoint` writes `json.dumps(sorted(dealer_urls))`; `load` unions
`json.loads(cache_path.read_text())` into the empty starting set.  The
standard-library JSON codec is an external collaborator: a cache file
holding a JSON array of strings is modelled as the list of those strings
(the codec is a bijection transporting that list). -/

/-- A checkpoint: the file contents as the JSON array of the sorted set. -/
def checkpointCache (urls : Finset String) : List String :=
  urls.sort (· ≤ ·)

/-- Loading the cache file: the parsed array, unioned into the empty
starting set. -/
def loadCache (contents : List String) : Finset String := contents.toFinset

/-! ## Postal-code source (buyers lines 119-138, western lines 109-129)

The CSV is modelled as the list of its `(country, postal_code)` string
pairs after pandas parsing.  The `limit` argument is a Python `int` (or
`None`); `out[:limit]` follows Python slice semantics, in which a
negative bound counts from the end. -/

/-- Python `l[:k]`. -/
def pySlicePre {α : Type} (l : List α) (k : Int) : List α :=
  if 0 ≤ k then l.take k.toNat else l.take (l.length - (-k).toNat)

namespace Buyers

/-- Embedding of `read_postal_codes` from `scrape_buyers_dealers.py`: filter rows to
US/CA, strip codes, drop empties, upper-case both columns, then truncate
only when `limit` is truthy (neither `None` nor `0`). -/
def read_postal_codes (rows : List (String × String)) (limit : Option Int) :
    List (String × String) :=
  let df := rows.filter (fun r => r.1 == "US" || r.1 == "CA")
  let df2 := df.map (fun r => (r.1, pyStrip r.2))
  let out := df2.filterMap (fun r =>
    let c := strUpper (pyStrip r.1)
    let pc := strUpper (pyStrip r.2)
    if pc = "" then none else some (c, pc))
  match limit with
  | none => out
  | some n => if n = 0 then out else pySlicePre out n

end Buyers

namespace Western

/-- Embedding of `read_postal_codes` from `scrape_western_dealers.py`: filter rows to
US/CA, strip codes, drop empties after upper-casing, then truncate only
when `limit` is truthy. -/
def read_postal_codes (rows : List (String × String)) (limit : Option Int) :
    List String :=
  let df := rows.filter (fun r => r.1 == "US" || r.1 == "CA")
  let codes := df.map (fun r => pyStrip r.2)
  let cleaned := codes.filterMap (fun c =>
    let c2 := strUpper (pyStrip c)
    if c2 = "" then none else some c2)
  match limit with
  | none => cleaned
  | some n => if n = 0 then cleaned else pySlicePre cleaned n

end Western

/-! ## Spec-side predicates and alias-invariance helpers -/

/-- The dual-signal heuristic as the spec words it: the key set, compared
case-insensitively, contains at least one name-like key AND either a
direct address key or city + (state or province) + (zip, postal or
postalCode). -/
def specDealerLike (kvs : List (String × Json)) : Prop :=
  (∃ p ∈ kvs, strLower p.1 ∈ nameKeyList) ∧
  ((∃ p ∈ kvs, strLower p.1 ∈ addrKeyList) ∨
    ((∃ p ∈ kvs, strLower p.1 = "city") ∧
     ((∃ p ∈ kvs, strLower p.1 = "state") ∨
       (∃ p ∈ kvs, strLower p.1 = "province")) ∧
     ((∃ p ∈ kvs, strLower p.1 = "zip") ∨ (∃ p ∈ kvs, strLower p.1 = "postal") ∨
       (∃ p ∈ kvs, strLower p.1 = "postalcode"))))

/-- A JSON object that stores the seven canonical field values under one
accepted alias each (the alias chosen by the index arguments). -/
def mkObj (ni : Fin nameAliases.length) (ai : Fin line1Aliases.length)
    (ci : Fin cityAliases.length) (si : Fin stateAliases.length)
    (pzi : Fin postalAliases.length) (cni : Fin countryAliases.length)
    (phi : Fin phoneAliases.length)
    (nv av cv sv pv cov phv : String) : List (String × Json) :=
  [(nameAliases.get ni, Json.str nv),
   (line1Aliases.get ai, Json.str av),
   (cityAliases.get ci, Json.str cv),
   (stateAliases.get si, Json.str sv),
   (postalAliases.get pzi, Json.str pv),
   (countryAliases.get cni, Json.str cov),
   (phoneAliases.get phi, Json.str phv)]

/-- The canonical record such an object extracts to: the extraction-loop
body with each `get_any` resolved to the stored value (and `line2` to the
empty string, since no `line2` alias is stored). -/
def extractCanon (nv av cv sv pv cov phv : String) : Option Dealer :=
  let name := pyStrip nv
  if name = "" then none
  else
    let line1 := pyStrip av
    let line2 := ""
    let city := pyStrip cv
    let state := pyStrip sv
    let postal := pyStrip pv
    let country := pyStrip cov
    let phone := pyStrip phv
    let cityState :=
      if city ≠ "" ∧ state ≠ "" then city ++ ", " ++ state
      else if city ≠ "" then city else state
    let cityStatePostal :=
      normWs (String.intercalate " "
        (([cityState, postal]).filter (fun x => x != "")))
    let address :=
      normWs (String.intercalate ", "
        (([line1, line2, cityStatePostal]).filter (fun x => x != "")))
    let c0 := strUpper (pyStrip country)
    let c1 := if c0 = "UNITED STATES" ∨ c0 = "USA" then "US" else c0
    let c2 := if c1 = "CANADA" then "CA" else c1
    let c := if c2 = "US" ∨ c2 = "CA" then c2 else ""
    let stUp := strUpper (pyStrip state)
    let st := if stUp.length = 2 then stUp else pyStrip state
    some
      { dealer_name := normWs name
        country := c
        state := st
        address := address
        phone := normWs phone
        email := "" }

/-! ### Lemmas about the first-seen loop -/

theorem dedupeGo_eq_firstSeenSpec (key : Dealer → String) :
    ∀ (l : List Dealer) (seen : List String),
      dedupeGo key seen l =
        firstSeenSpec key (l.filter (fun d => !(key d ∈ seen : Bool)))
  | [], seen => by simp [dedupeGo, firstSeenSpec]
  | d :: ds, seen => by
    by_cases h : key d ∈ seen
    · rw [dedupeGo, if_pos h, List.filter_cons]
      simp only [h, decide_True, Bool.not_true, Bool.false_eq_true, if_false]
      exact dedupeGo_eq_firstSeenSpec key ds seen
    · rw [dedupeGo, if_neg h, List.filter_cons]
      simp only [h, decide_False, Bool.not_false, if_true]
      rw [show firstSeenSpec key
            (d :: List.filter (fun e => !decide (key e ∈ seen)) ds) =
          d :: firstSeenSpec key
            ((List.filter (fun e => !decide (key e ∈ seen)) ds).filter
              (fun e => key e != key d)) from by rw [firstSeenSpec]]
      rw [dedupeGo_eq_firstSeenSpec key ds (key d :: seen)]
      have hf : List.filter (fun e => !decide (key e ∈ key d :: seen)) ds =
          List.filter (fun e => key e != key d && !decide (key e ∈ seen)) ds := by
        apply List.filter_congr
        intro e _
        by_cases he : key e = key d <;>
          by_cases hs : key e ∈ seen <;>
            simp [he, hs, List.mem_cons]
      rw [List.filter_filter, hf]
termination_by l _ => l.length

theorem dedupeGo_sublist (key : Dealer → String) :
    ∀ (l : List Dealer) (seen : List String), (dedupeGo key seen l).Sublist l
  | [], _ => by simp [dedupeGo]
  | d :: ds, seen => by
    by_cases h : key d ∈ seen
    · rw [dedupeGo, if_pos h]
      exact (dedupeGo_sublist key ds seen).cons d
    · rw [dedupeGo, if_neg h]
      exact (dedupeGo_sublist key ds (key d :: seen)).cons₂ d

theorem dedupeGo_keys_fresh (key : Dealer → String) :
    ∀ (l : List Dealer) (seen : List String),
      ((dedupeGo key seen l).map key).Nodup ∧
        ∀ d ∈ dedupeGo key seen l, key d ∉ seen
  | [], seen => by simp [dedupeGo]
  | d :: ds, seen => by
    by_cases h : key d ∈ seen
    · rw [dedupeGo, if_pos h]
      exact dedupeGo_keys_fresh key ds seen
    · rw [dedupeGo, if_neg h]
      obtain ⟨hnd, hfresh⟩ := dedupeGo_keys_fresh key ds (key d :: seen)
      refine ⟨?_, ?_⟩
      · simp only [List.map_cons, List.nodup_cons]
        refine ⟨?_, hnd⟩
        intro hmem
        obtain ⟨e, he, hke⟩ := List.mem_map.mp hmem
        exact (hfresh e he) (hke ▸ List.mem_cons_self _ _)
      · intro e he
        rcases List.mem_cons.mp he with rfl | he'
        · exact h
        · intro hs
          exact (hfresh e he') (List.mem_cons_of_mem _ hs)

theorem dedupeGo_of_nodup (key : Dealer → String) :
    ∀ (l : List Dealer) (seen : List String),
      (l.map key).Nodup → (∀ d ∈ l, key d ∉ seen) →
      dedupeGo key seen l = l
  | [], _, _, _ => by simp [dedupeGo]
  | d :: ds, seen, hnd, hfresh => by
    have hd : key d ∉ seen := hfresh d (List.mem_cons_self _ _)
    rw [dedupeGo, if_neg hd]
    congr 1
    apply dedupeGo_of_nodup key ds (key d :: seen)
    · exact (List.nodup_cons.mp (by simpa using hnd)).2
    · intro e he hs
      rcases List.mem_cons.mp hs with heq | hs'
      · have : key d ∉ ds.map key := (List.nodup_cons.mp (by simpa using hnd)).1
        exact this (heq ▸ List.mem_map_of_mem key he)
      · exact hfresh e (List.mem_cons_of_mem _ he) hs'

theorem dedupeGo_idem (key : Dealer → String) (l : List Dealer) :
    dedupeGo key [] (dedupeGo key [] l) = dedupeGo key [] l := by
  apply dedupeGo_of_nodup
  · exact (dedupeGo_keys_fresh key l []).1
  · intro d _
    exact List.not_mem_nil _

theorem dedupeGo_nil_seen (key : Dealer → String) (l : List Dealer) :
    dedupeGo key [] l = firstSeenSpec key l := by
  rw [dedupeGo_eq_firstSeenSpec]
  congr 1
  simp

/-- C1: for every finite sequence of Dealer records, `dedupe_dealers`
returns exactly the first record observed for each distinct dedup key, in
first-seen order (no later record with an already-seen key appears, output
order is the relative input order), for the `dedupe_dealers` of both
pipelines.  `firstSeenSpec` is the spec-side restatement of this
contract. -/
theorem dedupe_dealers_first_seen (l : List Dealer) :
    Buyers.dedupe_dealers l = firstSeenSpec buyersKey l ∧
    Western.dedupe_dealers l = firstSeenSpec westernKey l :=
  ⟨dedupeGo_nil_seen buyersKey l, dedupeGo_nil_seen westernKey l⟩

/-- C5: both `dedupe_dealers` functions are idempotent, their output is a
subsequence of the input (hence no longer than it), and every output
record is an input record. -/
theorem dedupe_dealers_idempotent (l : List Dealer) :
    Buyers.dedupe_dealers (Buyers.dedupe_dealers l) = Buyers.dedupe_dealers l ∧
    (Buyers.dedupe_dealers l).Sublist l ∧
    (Buyers.dedupe_dealers l).length ≤ l.length ∧
    (∀ d, d ∈ Buyers.dedupe_dealers l → d ∈ l) ∧
    Western.dedupe_dealers (Western.dedupe_dealers l) = Western.dedupe_dealers l ∧
    (Western.dedupe_dealers l).Sublist l ∧
    (Western.dedupe_dealers l).length ≤ l.length ∧
    (∀ d, d ∈ Western.dedupe_dealers l → d ∈ l) := by
  refine ⟨dedupeGo_idem buyersKey l, dedupeGo_sublist buyersKey l [], ?_, ?_,
    dedupeGo_idem westernKey l, dedupeGo_sublist westernKey l [], ?_, ?_⟩
  · exact (dedupeGo_sublist buyersKey l []).length_le
  · exact fun d hd => (dedupeGo_sublist buyersKey l []).subset hd
  · exact (dedupeGo_sublist westernKey l []).length_le
  · exact fun d hd => (dedupeGo_sublist westernKey l []).subset hd

/-- Witness for C5 at a concrete input: the membership conjunct applied to
a singleton list. -/
theorem dedupe_dealers_idempotent_witness :
    (⟨"A Dealer", "US", "NY", "1 Main St", "5551234", ""⟩ : Dealer) ∈
      [(⟨"A Dealer", "US", "NY", "1 Main St", "5551234", ""⟩ : Dealer)] :=
  (dedupe_dealers_idempotent
      [⟨"A Dealer", "US", "NY", "1 Main St", "5551234", ""⟩]).2.2.2.1
    ⟨"A Dealer", "US", "NY", "1 Main St", "5551234", ""⟩ (by decide)

/-- C3 counterexample: the claim says the dedup key normalizes (upper-case,
strip non-alphanumerics) every key field in both pipelines, so records
differing only in case/punctuation of any key field would collapse.  In
the code, `country` is interpolated raw in both pipelines and `state` is
interpolated raw in the western pipeline: two records differing only in
the case of `country` (resp. punctuation of `state`) keep distinct keys
and are both retained, contradicting the claim at this concrete input. -/
theorem dedup_key_not_fully_normalized_cex :
    (Buyers.dedupe_dealers
        [⟨"OBrien Motors", "us", "NY", "1 Main St", "5551234", ""⟩,
         ⟨"OBrien Motors", "US", "NY", "1 Main St", "5551234", ""⟩]).length = 2 ∧
    normKey "us" = normKey "US" ∧
    buyersKey ⟨"OBrien Motors", "us", "NY", "1 Main St", "5551234", ""⟩ ≠
      buyersKey ⟨"OBrien Motors", "US", "NY", "1 Main St", "5551234", ""⟩ ∧
    (Western.dedupe_dealers
        [⟨"OBrien Motors", "US", "N.Y.", "1 Main St", "5551234", ""⟩,
         ⟨"OBrien Motors", "US", "NY", "1 Main St", "5551234", ""⟩]).length = 2 ∧
    normKey "N.Y." = normKey "NY" ∧
    westernKey ⟨"OBrien Motors", "US", "N.Y.", "1 Main St", "5551234", ""⟩ ≠
      westernKey ⟨"OBrien Motors", "US", "NY", "1 Main St", "5551234", ""⟩ := by
  decide

/-- C3 (amended): the buyers dedup key is the `|`-concatenation of raw
country with normalized state, address, name and phone; the western dedup
key is raw country and state with normalized address and name.
Normalization upper-cases and strips characters outside `[A-Z0-9]`, so two
records whose normalized fields agree (and whose raw-kept fields agree
exactly) receive the same key, and only the first is retained; in
particular the name pair from the claim normalizes identically. -/
theorem dedup_key_normalization (d1 d2 : Dealer) :
    (d1.country = d2.country → normKey d1.state = normKey d2.state →
      normKey d1.address = normKey d2.address →
      normKey d1.dealer_name = normKey d2.dealer_name →
      normKey d1.phone = normKey d2.phone →
      buyersKey d1 = buyersKey d2 ∧ Buyers.dedupe_dealers [d1, d2] = [d1]) ∧
    (d1.country = d2.country → d1.state = d2.state →
      normKey d1.address = normKey d2.address →
      normKey d1.dealer_name = normKey d2.dealer_name →
      westernKey d1 = westernKey d2 ∧ Western.dedupe_dealers [d1, d2] = [d1]) ∧
    normKey "O\x27Brien Motors, Inc." = normKey "OBRIEN MOTORS INC" := by
  refine ⟨?_, ?_, by decide⟩
  · intro hc hs ha hn hp
    have hk : buyersKey d1 = buyersKey d2 := by
      unfold buyersKey
      rw [hc, hs, ha, hn, hp]
    refine ⟨hk, ?_⟩
    unfold Buyers.dedupe_dealers dedupeGo
    rw [if_neg (List.not_mem_nil _)]
    unfold dedupeGo
    rw [if_pos (by rw [← hk]; exact List.mem_cons_self _ _)]
    rfl
  · intro hc hs ha hn
    have hk : westernKey d1 = westernKey d2 := by
      unfold westernKey
      rw [hc, hs, ha, hn]
    refine ⟨hk, ?_⟩
    unfold Western.dedupe_dealers dedupeGo
    rw [if_neg (List.not_mem_nil _)]
    unfold dedupeGo
    rw [if_pos (by rw [← hk]; exact List.mem_cons_self _ _)]
    rfl

/-- Witness for the amended C3 at the concrete record pair from the claim:
`O'Brien Motors, Inc.` and `OBRIEN MOTORS INC` at the same address get the
same buyers key and only the first survives. -/
theorem dedup_key_normalization_witness :
    buyersKey ⟨"O\x27Brien Motors, Inc.", "US", "NY", "1 Main St", "", ""⟩ =
      buyersKey ⟨"OBRIEN MOTORS INC", "US", "NY", "1 Main St", "", ""⟩ ∧
    Buyers.dedupe_dealers
        [⟨"O\x27Brien Motors, Inc.", "US", "NY", "1 Main St", "", ""⟩,
         ⟨"OBRIEN MOTORS INC", "US", "NY", "1 Main St", "", ""⟩] =
      [⟨"O\x27Brien Motors, Inc.", "US", "NY", "1 Main St", "", ""⟩] :=
  (dedup_key_normalization
      ⟨"O\x27Brien Motors, Inc.", "US", "NY", "1 Main St", "", ""⟩
      ⟨"OBRIEN MOTORS INC", "US", "NY", "1 Main St", "", ""⟩).1
    (by decide) (by decide) (by decide) (by decide) (by decide)

/-! ### The dealer-dict heuristic and the tree walk -/

theorem hasKeyLower_iff (kvs : List (String × Json)) (k : String) :
    hasKeyLower kvs k = true ↔ ∃ p ∈ kvs, strLower p.1 = k := by
  simp [hasKeyLower]

theorem any_hasKeyLower_iff (kvs : List (String × Json)) (ks : List String) :
    ks.any (hasKeyLower kvs) = true ↔ ∃ p ∈ kvs, strLower p.1 ∈ ks := by
  simp only [List.any_eq_true, hasKeyLower_iff]
  constructor
  · rintro ⟨k, hk, p, hp, he⟩
    exact ⟨p, hp, he ▸ hk⟩
  · rintro ⟨p, hp, hm⟩
    exact ⟨strLower p.1, hm, p, hp, rfl⟩

mutual

theorem walkJson_eq_filter : ∀ (j : Json),
    walkJson j = (subMaps j).filter looks_like_dealer_dict
  | .obj kvs => by
    rw [walkJson, subMaps, List.filter_cons, walkPairs_eq_filter kvs]
    by_cases h : looks_like_dealer_dict kvs <;> simp [h]
  | .arr xs => by rw [walkJson, subMaps, walkList_eq_filter xs]
  | .str _ => by rw [walkJson, subMaps]; rfl
  | .int _ => by rw [walkJson, subMaps]; rfl
  | .bool _ => by rw [walkJson, subMaps]; rfl
  | .null => by rw [walkJson, subMaps]; rfl

theorem walkPairs_eq_filter : ∀ (kvs : List (String × Json)),
    walkPairs kvs = (subMapsPairs kvs).filter looks_like_dealer_dict
  | [] => by rw [walkPairs, subMapsPairs]; rfl
  | kv :: rest => by
    rw [walkPairs, subMapsPairs, List.filter_append,
      walkJson_eq_filter kv.2, walkPairs_eq_filter rest]

theorem walkList_eq_filter : ∀ (xs : List Json),
    walkList xs = (subMapsList xs).filter looks_like_dealer_dict
  | [] => by rw [walkList, subMapsList]; rfl
  | x :: rest => by
    rw [walkList, subMapsList, List.filter_append,
      walkJson_eq_filter x, walkList_eq_filter rest]

end

/-- C4: `looks_like_dealer_dict` holds exactly when the key set (compared
case-insensitively) contains a name-like key and an address-like signal
(direct address key, or city + (state or province) + (zip, postal or
postalCode)); and the recursive walk collects exactly the nested mappings
satisfying this predicate, in pre-order. -/
theorem looks_like_dealer_dict_correct :
    (∀ kvs : List (String × Json),
      (looks_like_dealer_dict kvs = true ↔ specDealerLike kvs)) ∧
    (∀ j : Json, walkJson j = (subMaps j).filter looks_like_dealer_dict) := by
  refine ⟨?_, walkJson_eq_filter⟩
  intro kvs
  unfold looks_like_dealer_dict specDealerLike
  simp only [Bool.and_eq_true, Bool.or_eq_true, any_hasKeyLower_iff,
    hasKeyLower_iff]
  rw [and_assoc, or_assoc]

/-! ### Stripping and whitespace-collapsing facts -/

theorem dropWhile_dropWhile (p : Char → Bool) (l : List Char) :
    (l.dropWhile p).dropWhile p = l.dropWhile p := by
  induction l with
  | nil => rfl
  | cons c t ih =>
    by_cases hc : p c
    · simp [List.dropWhile_cons, hc, ih]
    · simp [List.dropWhile_cons, hc]

theorem dropWhile_head_false (p : Char → Bool) :
    ∀ (l : List Char) (c : Char) (t : List Char),
      l.dropWhile p = c :: t → p c = false
  | [], c, t, h => by simp [List.dropWhile] at h
  | a :: l, c, t, h => by
    by_cases ha : p a
    · rw [List.dropWhile_cons, if_pos ha] at h
      exact dropWhile_head_false p l c t h
    · rw [List.dropWhile_cons, if_neg ha] at h
      cases h
      exact Bool.eq_false_iff.mpr ha

theorem stripL_head (l : List Char) :
    stripL l = [] ∨ ∃ c t, stripL l = c :: t ∧ isPySpace c = false := by
  cases hf : l.dropWhile isPySpace with
  | nil => left; simp [stripL, hf]
  | cons c0 t0 =>
    have hc0 : isPySpace c0 = false := dropWhile_head_false _ l c0 t0 hf
    obtain ⟨u, hu⟩ :=
      List.dropWhile_suffix (l := (l.dropWhile isPySpace).reverse) isPySpace
    cases hs : stripL l with
    | nil => left; rfl
    | cons c t =>
      right
      refine ⟨c, t, rfl, ?_⟩
      have hpre : stripL l ++ u.reverse = l.dropWhile isPySpace := by
        have := congrArg List.reverse hu
        simpa [stripL, List.reverse_append] using this
      rw [hs, hf] at hpre
      have : c = c0 := by
        have := congrArg (fun x => x.head?) hpre
        simpa using this
      rw [this]
      exact hc0

theorem stripL_idem (l : List Char) : stripL (stripL l) = stripL l := by
  have hA : (stripL l).dropWhile isPySpace = stripL l := by
    rcases stripL_head l with h | ⟨c, t, h, hc⟩
    · rw [h]; rfl
    · rw [h, List.dropWhile_cons, if_neg (by simp [hc])]
  have hB : (stripL l).reverse.dropWhile isPySpace = (stripL l).reverse := by
    show ((((l.dropWhile isPySpace).reverse.dropWhile isPySpace).reverse).reverse).dropWhile isPySpace = _
    rw [List.reverse_reverse, dropWhile_dropWhile, stripL,
      List.reverse_reverse]
  show (((stripL l).dropWhile isPySpace).reverse.dropWhile isPySpace).reverse = stripL l
  rw [hA, hB, List.reverse_reverse]

theorem collapseWs_ne_nil : ∀ (c : Char) (t : List Char),
    collapseWs (c :: t) ≠ []
  | c, [] => by
    rw [collapseWs]
    split <;> simp
  | c, c2 :: rest => by
    rw [collapseWs]
    split
    · split
      · exact collapseWs_ne_nil c2 rest
      · simp
    · simp

theorem normWs_eq_empty_iff (s : String) :
    normWs s = "" ↔ stripL s.toList = [] := by
  constructor
  · intro h
    have h2 : collapseWs (stripL s.toList) = [] := congrArg String.data h
    cases he : stripL s.toList with
    | nil => rfl
    | cons c t => exact absurd (he ▸ h2) (collapseWs_ne_nil c t)
  · intro h
    show String.mk (collapseWs (stripL s.toList)) = ""
    rw [h]
    rfl

theorem pyStrip_normWs_ne (s : String) (h : pyStrip s ≠ "") :
    normWs (pyStrip s) ≠ "" := by
  intro hn
  rw [normWs_eq_empty_iff] at hn
  have hts : (pyStrip s).toList = stripL s.toList := rfl
  rw [hts, stripL_idem] at hn
  exact h (by show String.mk (stripL s.toList) = ""; rw [hn])

/-! ### `get_any` produces stripped values; empty names are discarded -/

theorem getAny_cons_none (kvs : List (String × Json)) (nm : String)
    (rest : List String) (h : getAnyStep kvs nm = none) :
    getAny kvs (nm :: rest) = getAny kvs rest := by
  rw [getAny, h]

theorem getAny_cons_some (kvs : List (String × Json)) (nm : String)
    (rest : List String) (s : String) (h : getAnyStep kvs nm = some s) :
    getAny kvs (nm :: rest) = s := by
  rw [getAny, h]

theorem getAnyStep_stripped (kvs : List (String × Json)) (nm : String)
    (s : String) (h : getAnyStep kvs nm = some s) :
    (∃ t, s = pyStrip t) ∧ s ≠ "" := by
  unfold getAnyStep at h
  cases hf : lkFind kvs nm with
  | none => rw [hf] at h; cases h
  | some v =>
    rw [hf] at h
    replace h : (match scalarStr v with
      | none => (none : Option String)
      | some t => if pyStrip t = "" then none else some (pyStrip t)) =
        some s := h
    cases hsc : scalarStr v with
    | none => rw [hsc] at h; cases h
    | some t =>
      rw [hsc] at h
      replace h : (if pyStrip t = "" then (none : Option String)
          else some (pyStrip t)) = some s := h
      by_cases hp : pyStrip t = ""
      · rw [if_pos hp] at h; cases h
      · rw [if_neg hp] at h
        have hs := Option.some.inj h
        exact ⟨⟨t, hs.symm⟩, hs.symm ▸ hp⟩

theorem getAny_normWs_ne (kvs : List (String × Json)) :
    ∀ (names : List String), getAny kvs names ≠ "" →
      normWs (getAny kvs names) ≠ ""
  | [], h => absurd rfl h
  | nm :: rest, h => by
    cases hstep : getAnyStep kvs nm with
    | none =>
      rw [getAny_cons_none kvs nm rest hstep] at h ⊢
      exact getAny_normWs_ne kvs rest h
    | some s =>
      rw [getAny_cons_some kvs nm rest s hstep]
      obtain ⟨⟨t, ht⟩, hne⟩ := getAnyStep_stripped kvs nm s hstep
      rw [ht]
      exact pyStrip_normWs_ne t (ht ▸ hne)

theorem extractDealer_name_ne (kvs : List (String × Json)) (d : Dealer)
    (h : extractDealerFromDict kvs = some d) : d.dealer_name ≠ "" := by
  by_cases hn : getAny kvs nameAliases = ""
  · simp [extractDealerFromDict, hn] at h
  · have hd : d.dealer_name = normWs (getAny kvs nameAliases) := by
      simp only [extractDealerFromDict] at h
      rw [if_neg hn] at h
      have h3 := Option.some.inj h
      rw [← h3]
    rw [hd]
    exact getAny_normWs_ne kvs nameAliases hn

/-- C7: no Dealer record with an empty name is ever constructed: the JSON
extractor skips every matched mapping whose name aliases resolve to empty
or missing values, and the detail-page parser returns no record when the
primary heading is absent or empty; so neither source can hand an
empty-name record to the dedup engine or the export. -/
theorem no_empty_name_record (blobs : List Json) (r : FetchOutcome)
    (d : Dealer) :
    (d ∈ extract_dealers_from_json_blobs blobs → d.dealer_name ≠ "") ∧
    (parse_western_dealer_page r = some d → d.dealer_name ≠ "") := by
  constructor
  · intro hd
    unfold extract_dealers_from_json_blobs at hd
    obtain ⟨kvs, _, hk⟩ := List.mem_filterMap.mp hd
    exact extractDealer_name_ne kvs d hk
  · intro hp
    cases r with
    | netError => cases hp
    | response status page =>
      simp only [parse_western_dealer_page] at hp
      by_cases hs : status ≠ 200
      · rw [if_pos hs] at hp
        cases hp
      · rw [if_neg hs] at hp
        by_cases hnm : (match page.h1Text with
          | some t => normWs t
          | none => "") = ""
        · rw [if_pos hnm] at hp
          cases hp
        · rw [if_neg hnm] at hp
          have h3 := Option.some.inj hp
          rw [← h3]
          exact hnm

/-- Witness for C7: a concrete captured blob produces the expected record,
whose name is indeed non-empty. -/
theorem no_empty_name_record_witness :
    (⟨"Acme", "", "", "1 Main St", "", ""⟩ : Dealer).dealer_name ≠ "" :=
  (no_empty_name_record
      [Json.obj [("name", Json.str "Acme"), ("address", Json.str "1 Main St")]]
      FetchOutcome.netError
      ⟨"Acme", "", "", "1 Main St", "", ""⟩).1 (by decide)

/-! ### Alias-invariance of the record extractor -/

theorem getAny_all_none (kvs : List (String × Json)) :
    ∀ (names : List String),
      (∀ nm ∈ names, getAnyStep kvs nm = none) → getAny kvs names = ""
  | [], _ => rfl
  | nm :: rest, h => by
    rw [getAny_cons_none kvs nm rest (h nm (List.mem_cons_self _ _))]
    exact getAny_all_none kvs rest (fun x hx => h x (List.mem_cons_of_mem _ hx))

theorem getAny_unique (kvs : List (String × Json)) (nm0 : String) (v : String)
    (hstep0 : getAnyStep kvs nm0 =
      if pyStrip v = "" then none else some (pyStrip v)) :
    ∀ (names : List String), nm0 ∈ names →
      (∀ nm ∈ names, nm ≠ nm0 → getAnyStep kvs nm = none) →
      names.Nodup → getAny kvs names = pyStrip v
  | [], hmem, _, _ => absurd hmem (List.not_mem_nil _)
  | nm :: rest, hmem, hothers, hnd => by
    by_cases he : nm = nm0
    · subst he
      have hnm0rest : nm ∉ rest := (List.nodup_cons.mp hnd).1
      by_cases hv : pyStrip v = ""
      · rw [getAny_cons_none kvs nm rest (by rw [hstep0, if_pos hv]), hv]
        exact getAny_all_none kvs rest (fun x hx =>
          hothers x (List.mem_cons_of_mem _ hx)
            (fun hxe => hnm0rest (hxe ▸ hx)))
      · exact getAny_cons_some kvs nm rest _ (by rw [hstep0, if_neg hv])
    · rw [getAny_cons_none kvs nm rest
        (hothers nm (List.mem_cons_self _ _) he)]
      exact getAny_unique kvs nm0 v hstep0 rest
        ((List.mem_cons.mp hmem).resolve_left (fun h2 => he h2.symm))
        (fun x hx hxe => hothers x (List.mem_cons_of_mem _ hx) hxe)
        (List.nodup_cons.mp hnd).2

theorem get_lower_mem (F : List String) (i : Fin F.length) :
    strLower (F.get i) ∈ F.map strLower :=
  List.mem_map_of_mem _ (F.get_mem i.1 i.2)

theorem ne_of_fams {F G : List String} (i : Fin F.length) {nm : String}
    (hnm : nm ∈ G)
    (hdisj : ∀ x ∈ F.map strLower, x ∉ G.map strLower) :
    ¬ strLower (F.get i) = strLower nm := fun he =>
  hdisj _ (get_lower_mem F i) (he ▸ List.mem_map_of_mem _ hnm)

theorem ne_within {F : List String} (i : Fin F.length) {nm : String}
    (hnm : nm ∈ F) (hne : nm ≠ F.get i)
    (hinj : ∀ a ∈ F, ∀ b ∈ F, strLower a = strLower b → a = b) :
    ¬ strLower (F.get i) = strLower nm := fun he =>
  hne (hinj nm hnm (F.get i) (F.get_mem i.1 i.2) he.symm)

theorem lkFind_nil (nm : String) : lkFind [] nm = none := rfl

theorem lkFind_cons_ne (k : String) (v : Json) (kvs : List (String × Json))
    (nm : String) (h : ¬ strLower k = strLower nm) :
    lkFind ((k, v) :: kvs) nm = lkFind kvs nm := by
  unfold lkFind
  rw [List.reverse_cons, List.find?_append]
  have h2 : List.find? (fun p => strLower p.1 == strLower nm) [(k, v)] = none := by
    rw [List.find?]
    rw [show (strLower k == strLower nm) = false from beq_eq_false_iff_ne.mpr h]
    rfl
  rw [h2]
  cases List.find? (fun p => strLower p.1 == strLower nm) kvs.reverse <;> rfl

theorem lkFind_cons_found (k : String) (v : Json) (kvs : List (String × Json))
    (nm : String) (heq : strLower k = strLower nm)
    (hnone : lkFind kvs nm = none) :
    lkFind ((k, v) :: kvs) nm = some v := by
  unfold lkFind at hnone ⊢
  rw [List.reverse_cons, List.find?_append]
  have h0 : List.find? (fun p => strLower p.1 == strLower nm) kvs.reverse
      = none := by
    cases hf : List.find? (fun p => strLower p.1 == strLower nm) kvs.reverse
    · rfl
    · rw [hf] at hnone
      cases hnone
  rw [h0]
  simp [List.find?, heq]

theorem lkFind_none (kvs : List (String × Json)) (nm : String)
    (h : ∀ p ∈ kvs, ¬ strLower p.1 = strLower nm) : lkFind kvs nm = none := by
  unfold lkFind
  rw [List.find?_eq_none.mpr]
  · rfl
  · intro p hp
    simp [h p (List.mem_reverse.mp hp)]


/-! ### `get_any` on an object storing one alias per field -/

theorem getAnyStep_mkObj_name (ni : Fin nameAliases.length) (ai : Fin line1Aliases.length)
    (ci : Fin cityAliases.length) (si : Fin stateAliases.length)
    (pzi : Fin postalAliases.length) (cni : Fin countryAliases.length)
    (phi : Fin phoneAliases.length)
    (nv av cv sv pv cov phv : String) :
    getAnyStep (mkObj ni ai ci si pzi cni phi nv av cv sv pv cov phv) (nameAliases.get ni) =
      if pyStrip nv = "" then none else some (pyStrip nv) := by
  have hnm : nameAliases.get ni ∈ nameAliases := nameAliases.get_mem ni.1 ni.2
  have hlk : lkFind (mkObj ni ai ci si pzi cni phi nv av cv sv pv cov phv) (nameAliases.get ni) = some (Json.str nv) := by
    unfold mkObj
    rw [lkFind_cons_found _ _ _ _ rfl ?_]
    apply lkFind_none
    intro p hp
    simp only [List.mem_cons, List.not_mem_nil, or_false] at hp
    rcases hp with rfl | rfl | rfl | rfl | rfl | rfl
    · exact ne_of_fams ai hnm (by decide)
    · exact ne_of_fams ci hnm (by decide)
    · exact ne_of_fams si hnm (by decide)
    · exact ne_of_fams pzi hnm (by decide)
    · exact ne_of_fams cni hnm (by decide)
    · exact ne_of_fams phi hnm (by decide)
  unfold getAnyStep
  rw [hlk]
  rfl

theorem getAnyStep_mkObj_name_other (ni : Fin nameAliases.length) (ai : Fin line1Aliases.length)
    (ci : Fin cityAliases.length) (si : Fin stateAliases.length)
    (pzi : Fin postalAliases.length) (cni : Fin countryAliases.length)
    (phi : Fin phoneAliases.length)
    (nv av cv sv pv cov phv : String)
    (nm : String) (hnm : nm ∈ nameAliases) (hne : nm ≠ nameAliases.get ni) :
    getAnyStep (mkObj ni ai ci si pzi cni phi nv av cv sv pv cov phv) nm = none := by
  have hlk : lkFind (mkObj ni ai ci si pzi cni phi nv av cv sv pv cov phv) nm = none := by
    apply lkFind_none
    intro p hp
    unfold mkObj at hp
    simp only [List.mem_cons, List.not_mem_nil, or_false] at hp
    rcases hp with rfl | rfl | rfl | rfl | rfl | rfl | rfl
    · exact ne_within ni hnm hne (by decide)
    · exact ne_of_fams ai hnm (by decide)
    · exact ne_of_fams ci hnm (by decide)
    · exact ne_of_fams si hnm (by decide)
    · exact ne_of_fams pzi hnm (by decide)
    · exact ne_of_fams cni hnm (by decide)
    · exact ne_of_fams phi hnm (by decide)
  unfold getAnyStep
  rw [hlk]

theorem getAny_mkObj_name (ni : Fin nameAliases.length) (ai : Fin line1Aliases.length)
    (ci : Fin cityAliases.length) (si : Fin stateAliases.length)
    (pzi : Fin postalAliases.length) (cni : Fin countryAliases.length)
    (phi : Fin phoneAliases.length)
    (nv av cv sv pv cov phv : String) :
    getAny (mkObj ni ai ci si pzi cni phi nv av cv sv pv cov phv) nameAliases = pyStrip nv :=
  getAny_unique _ (nameAliases.get ni) nv
    (getAnyStep_mkObj_name ni ai ci si pzi cni phi nv av cv sv pv cov phv) nameAliases
    (nameAliases.get_mem ni.1 ni.2)
    (fun nm hnm hne => getAnyStep_mkObj_name_other ni ai ci si pzi cni phi nv av cv sv pv cov phv nm hnm hne)
    (by decide)

theorem getAnyStep_mkObj_line1 (ni : Fin nameAliases.length) (ai : Fin line1Aliases.length)
    (ci : Fin cityAliases.length) (si : Fin stateAliases.length)
    (pzi : Fin postalAliases.length) (cni : Fin countryAliases.length)
    (phi : Fin phoneAliases.length)
    (nv av cv sv pv cov phv : String) :
    getAnyStep (mkObj ni ai ci si pzi cni phi nv av cv sv pv cov phv) (line1Aliases.get ai) =
      if pyStrip av = "" then none else some (pyStrip av) := by
  have hnm : line1Aliases.get ai ∈ line1Aliases := line1Aliases.get_mem ai.1 ai.2
  have hlk : lkFind (mkObj ni ai ci si pzi cni phi nv av cv sv pv cov phv) (line1Aliases.get ai) = some (Json.str av) := by
    unfold mkObj
    rw [lkFind_cons_ne _ _ _ _ (ne_of_fams ni hnm (by decide))]
    rw [lkFind_cons_found _ _ _ _ rfl ?_]
    apply lkFind_none
    intro p hp
    simp only [List.mem_cons, List.not_mem_nil, or_false] at hp
    rcases hp with rfl | rfl | rfl | rfl | rfl
    · exact ne_of_fams ci hnm (by decide)
    · exact ne_of_fams si hnm (by decide)
    · exact ne_of_fams pzi hnm (by decide)
    · exact ne_of_fams cni hnm (by decide)
    · exact ne_of_fams phi hnm (by decide)
  unfold getAnyStep
  rw [hlk]
  rfl

theorem getAnyStep_mkObj_line1_other (ni : Fin nameAliases.length) (ai : Fin line1Aliases.length)
    (ci : Fin cityAliases.length) (si : Fin stateAliases.length)
    (pzi : Fin postalAliases.length) (cni : Fin countryAliases.length)
    (phi : Fin phoneAliases.length)
    (nv av cv sv pv cov phv : String)
    (nm : String) (hnm : nm ∈ line1Aliases) (hne : nm ≠ line1Aliases.get ai) :
    getAnyStep (mkObj ni ai ci si pzi cni phi nv av cv sv pv cov phv) nm = none := by
  have hlk : lkFind (mkObj ni ai ci si pzi cni phi nv av cv sv pv cov phv) nm = none := by
    apply lkFind_none
    intro p hp
    unfold mkObj at hp
    simp only [List.mem_cons, List.not_mem_nil, or_false] at hp
    rcases hp with rfl | rfl | rfl | rfl | rfl | rfl | rfl
    · exact ne_of_fams ni hnm (by decide)
    · exact ne_within ai hnm hne (by decide)
    · exact ne_of_fams ci hnm (by decide)
    · exact ne_of_fams si hnm (by decide)
    · exact ne_of_fams pzi hnm (by decide)
    · exact ne_of_fams cni hnm (by decide)
    · exact ne_of_fams phi hnm (by decide)
  unfold getAnyStep
  rw [hlk]

theorem getAny_mkObj_line1 (ni : Fin nameAliases.length) (ai : Fin line1Aliases.length)
    (ci : Fin cityAliases.length) (si : Fin stateAliases.length)
    (pzi : Fin postalAliases.length) (cni : Fin countryAliases.length)
    (phi : Fin phoneAliases.length)
    (nv av cv sv pv cov phv : String) :
    getAny (mkObj ni ai ci si pzi cni phi nv av cv sv pv cov phv) line1Aliases = pyStrip av :=
  getAny_unique _ (line1Aliases.get ai) av
    (getAnyStep_mkObj_line1 ni ai ci si pzi cni phi nv av cv sv pv cov phv) line1Aliases
    (line1Aliases.get_mem ai.1 ai.2)
    (fun nm hnm hne => getAnyStep_mkObj_line1_other ni ai ci si pzi cni phi nv av cv sv pv cov phv nm hnm hne)
    (by decide)

theorem getAnyStep_mkObj_city (ni : Fin nameAliases.length) (ai : Fin line1Aliases.length)
    (ci : Fin cityAliases.length) (si : Fin stateAliases.length)
    (pzi : Fin postalAliases.length) (cni : Fin countryAliases.length)
    (phi : Fin phoneAliases.length)
    (nv av cv sv pv cov phv : String) :
    getAnyStep (mkObj ni ai ci si pzi cni phi nv av cv sv pv cov phv) (cityAliases.get ci) =
      if pyStrip cv = "" then none else some (pyStrip cv) := by
  have hnm : cityAliases.get ci ∈ cityAliases := cityAliases.get_mem ci.1 ci.2
  have hlk : lkFind (mkObj ni ai ci si pzi cni phi nv av cv sv pv cov phv) (cityAliases.get ci) = some (Json.str cv) := by
    unfold mkObj
    rw [lkFind_cons_ne _ _ _ _ (ne_of_fams ni hnm (by decide))]
    rw [lkFind_cons_ne _ _ _ _ (ne_of_fams ai hnm (by decide))]
    rw [lkFind_cons_found _ _ _ _ rfl ?_]
    apply lkFind_none
    intro p hp
    simp only [List.mem_cons, List.not_mem_nil, or_false] at hp
    rcases hp with rfl | rfl | rfl | rfl
    · exact ne_of_fams si hnm (by decide)
    · exact ne_of_fams pzi hnm (by decide)
    · exact ne_of_fams cni hnm (by decide)
    · exact ne_of_fams phi hnm (by decide)
  unfold getAnyStep
  rw [hlk]
  rfl

theorem getAnyStep_mkObj_city_other (ni : Fin nameAliases.length) (ai : Fin line1Aliases.length)
    (ci : Fin cityAliases.length) (si : Fin stateAliases.length)
    (pzi : Fin postalAliases.length) (cni : Fin countryAliases.length)
    (phi : Fin phoneAliases.length)
    (nv av cv sv pv cov phv : String)
    (nm : String) (hnm : nm ∈ cityAliases) (hne : nm ≠ cityAliases.get ci) :
    getAnyStep (mkObj ni ai ci si pzi cni phi nv av cv sv pv cov phv) nm = none := by
  have hlk : lkFind (mkObj ni ai ci si pzi cni phi nv av cv sv pv cov phv) nm = none := by
    apply lkFind_none
    intro p hp
    unfold mkObj at hp
    simp only [List.mem_cons, List.not_mem_nil, or_false] at hp
    rcases hp with rfl | rfl | rfl | rfl | rfl | rfl | rfl
    · exact ne_of_fams ni hnm (by decide)
    · exact ne_of_fams ai hnm (by decide)
    · exact ne_within ci hnm hne (by decide)
    · exact ne_of_fams si hnm (by decide)
    · exact ne_of_fams pzi hnm (by decide)
    · exact ne_of_fams cni hnm (by decide)
    · exact ne_of_fams phi hnm (by decide)
  unfold getAnyStep
  rw [hlk]

theorem getAny_mkObj_city (ni : Fin nameAliases.length) (ai : Fin line1Aliases.length)
    (ci : Fin cityAliases.length) (si : Fin stateAliases.length)
    (pzi : Fin postalAliases.length) (cni : Fin countryAliases.length)
    (phi : Fin phoneAliases.length)
    (nv av cv sv pv cov phv : String) :
    getAny (mkObj ni ai ci si pzi cni phi nv av cv sv pv cov phv) cityAliases = pyStrip cv :=
  getAny_unique _ (cityAliases.get ci) cv
    (getAnyStep_mkObj_city ni ai ci si pzi cni phi nv av cv sv pv cov phv) cityAliases
    (cityAliases.get_mem ci.1 ci.2)
    (fun nm hnm hne => getAnyStep_mkObj_city_other ni ai ci si pzi cni phi nv av cv sv pv cov phv nm hnm hne)
    (by decide)

theorem getAnyStep_mkObj_state (ni : Fin nameAliases.length) (ai : Fin line1Aliases.length)
    (ci : Fin cityAliases.length) (si : Fin stateAliases.length)
    (pzi : Fin postalAliases.length) (cni : Fin countryAliases.length)
    (phi : Fin phoneAliases.length)
    (nv av cv sv pv cov phv : String) :
    getAnyStep (mkObj ni ai ci si pzi cni phi nv av cv sv pv cov phv) (stateAliases.get si) =
      if pyStrip sv = "" then none else some (pyStrip sv) := by
  have hnm : stateAliases.get si ∈ stateAliases := stateAliases.get_mem si.1 si.2
  have hlk : lkFind (mkObj ni ai ci si pzi cni phi nv av cv sv pv cov phv) (stateAliases.get si) = some (Json.str sv) := by
    unfold mkObj
    rw [lkFind_cons_ne _ _ _ _ (ne_of_fams ni hnm (by decide))]
    rw [lkFind_cons_ne _ _ _ _ (ne_of_fams ai hnm (by decide))]
    rw [lkFind_cons_ne _ _ _ _ (ne_of_fams ci hnm (by decide))]
    rw [lkFind_cons_found _ _ _ _ rfl ?_]
    apply lkFind_none
    intro p hp
    simp only [List.mem_cons, List.not_mem_nil, or_false] at hp
    rcases hp with rfl | rfl | rfl
    · exact ne_of_fams pzi hnm (by decide)
    · exact ne_of_fams cni hnm (by decide)
    · exact ne_of_fams phi hnm (by decide)
  unfold getAnyStep
  rw [hlk]
  rfl

theorem getAnyStep_mkObj_state_other (ni : Fin nameAliases.length) (ai : Fin line1Aliases.length)
    (ci : Fin cityAliases.length) (si : Fin stateAliases.length)
    (pzi : Fin postalAliases.length) (cni : Fin countryAliases.length)
    (phi : Fin phoneAliases.length)
    (nv av cv sv pv cov phv : String)
    (nm : String) (hnm : nm ∈ stateAliases) (hne : nm ≠ stateAliases.get si) :
    getAnyStep (mkObj ni ai ci si pzi cni phi nv av cv sv pv cov phv) nm = none := by
  have hlk : lkFind (mkObj ni ai ci si pzi cni phi nv av cv sv pv cov phv) nm = none := by
    apply lkFind_none
    intro p hp
    unfold mkObj at hp
    simp only [List.mem_cons, List.not_mem_nil, or_false] at hp
    rcases hp with rfl | rfl | rfl | rfl | rfl | rfl | rfl
    · exact ne_of_fams ni hnm (by decide)
    · exact ne_of_fams ai hnm (by decide)
    · exact ne_of_fams ci hnm (by decide)
    · exact ne_within si hnm hne (by decide)
    · exact ne_of_fams pzi hnm (by decide)
    · exact ne_of_fams cni hnm (by decide)
    · exact ne_of_fams phi hnm (by decide)
  unfold getAnyStep
  rw [hlk]

theorem getAny_mkObj_state (ni : Fin nameAliases.length) (ai : Fin line1Aliases.length)
    (ci : Fin cityAliases.length) (si : Fin stateAliases.length)
    (pzi : Fin postalAliases.length) (cni : Fin countryAliases.length)
    (phi : Fin phoneAliases.length)
    (nv av cv sv pv cov phv : String) :
    getAny (mkObj ni ai ci si pzi cni phi nv av cv sv pv cov phv) stateAliases = pyStrip sv :=
  getAny_unique _ (stateAliases.get si) sv
    (getAnyStep_mkObj_state ni ai ci si pzi cni phi nv av cv sv pv cov phv) stateAliases
    (stateAliases.get_mem si.1 si.2)
    (fun nm hnm hne => getAnyStep_mkObj_state_other ni ai ci si pzi cni phi nv av cv sv pv cov phv nm hnm hne)
    (by decide)

theorem getAnyStep_mkObj_postal (ni : Fin nameAliases.length) (ai : Fin line1Aliases.length)
    (ci : Fin cityAliases.length) (si : Fin stateAliases.length)
    (pzi : Fin postalAliases.length) (cni : Fin countryAliases.length)
    (phi : Fin phoneAliases.length)
    (nv av cv sv pv cov phv : String) :
    getAnyStep (mkObj ni ai ci si pzi cni phi nv av cv sv pv cov phv) (postalAliases.get pzi) =
      if pyStrip pv = "" then none else some (pyStrip pv) := by
  have hnm : postalAliases.get pzi ∈ postalAliases := postalAliases.get_mem pzi.1 pzi.2
  have hlk : lkFind (mkObj ni ai ci si pzi cni phi nv av cv sv pv cov phv) (postalAliases.get pzi) = some (Json.str pv) := by
    unfold mkObj
    rw [lkFind_cons_ne _ _ _ _ (ne_of_fams ni hnm (by decide))]
    rw [lkFind_cons_ne _ _ _ _ (ne_of_fams ai hnm (by decide))]
    rw [lkFind_cons_ne _ _ _ _ (ne_of_fams ci hnm (by decide))]
    rw [lkFind_cons_ne _ _ _ _ (ne_of_fams si hnm (by decide))]
    rw [lkFind_cons_found _ _ _ _ rfl ?_]
    apply lkFind_none
    intro p hp
    simp only [List.mem_cons, List.not_mem_nil, or_false] at hp
    rcases hp with rfl | rfl
    · exact ne_of_fams cni hnm (by decide)
    · exact ne_of_fams phi hnm (by decide)
  unfold getAnyStep
  rw [hlk]
  rfl

theorem getAnyStep_mkObj_postal_other (ni : Fin nameAliases.length) (ai : Fin line1Aliases.length)
    (ci : Fin cityAliases.length) (si : Fin stateAliases.length)
    (pzi : Fin postalAliases.length) (cni : Fin countryAliases.length)
    (phi : Fin phoneAliases.length)
    (nv av cv sv pv cov phv : String)
    (nm : String) (hnm : nm ∈ postalAliases) (hne : nm ≠ postalAliases.get pzi) :
    getAnyStep (mkObj ni ai ci si pzi cni phi nv av cv sv pv cov phv) nm = none := by
  have hlk : lkFind (mkObj ni ai ci si pzi cni phi nv av cv sv pv cov phv) nm = none := by
    apply lkFind_none
    intro p hp
    unfold mkObj at hp
    simp only [List.mem_cons, List.not_mem_nil, or_false] at hp
    rcases hp with rfl | rfl | rfl | rfl | rfl | rfl | rfl
    · exact ne_of_fams ni hnm (by decide)
    · exact ne_of_fams ai hnm (by decide)
    · exact ne_of_fams ci hnm (by decide)
    · exact ne_of_fams si hnm (by decide)
    · exact ne_within pzi hnm hne (by decide)
    · exact ne_of_fams cni hnm (by decide)
    · exact ne_of_fams phi hnm (by decide)
  unfold getAnyStep
  rw [hlk]

theorem getAny_mkObj_postal (ni : Fin nameAliases.length) (ai : Fin line1Aliases.length)
    (ci : Fin cityAliases.length) (si : Fin stateAliases.length)
    (pzi : Fin postalAliases.length) (cni : Fin countryAliases.length)
    (phi : Fin phoneAliases.length)
    (nv av cv sv pv cov phv : String) :
    getAny (mkObj ni ai ci si pzi cni phi nv av cv sv pv cov phv) postalAliases = pyStrip pv :=
  getAny_unique _ (postalAliases.get pzi) pv
    (getAnyStep_mkObj_postal ni ai ci si pzi cni phi nv av cv sv pv cov phv) postalAliases
    (postalAliases.get_mem pzi.1 pzi.2)
    (fun nm hnm hne => getAnyStep_mkObj_postal_other ni ai ci si pzi cni phi nv av cv sv pv cov phv nm hnm hne)
    (by decide)

theorem getAnyStep_mkObj_country (ni : Fin nameAliases.length) (ai : Fin line1Aliases.length)
    (ci : Fin cityAliases.length) (si : Fin stateAliases.length)
    (pzi : Fin postalAliases.length) (cni : Fin countryAliases.length)
    (phi : Fin phoneAliases.length)
    (nv av cv sv pv cov phv : String) :
    getAnyStep (mkObj ni ai ci si pzi cni phi nv av cv sv pv cov phv) (countryAliases.get cni) =
      if pyStrip cov = "" then none else some (pyStrip cov) := by
  have hnm : countryAliases.get cni ∈ countryAliases := countryAliases.get_mem cni.1 cni.2
  have hlk : lkFind (mkObj ni ai ci si pzi cni phi nv av cv sv pv cov phv) (countryAliases.get cni) = some (Json.str cov) := by
    unfold mkObj
    rw [lkFind_cons_ne _ _ _ _ (ne_of_fams ni hnm (by decide))]
    rw [lkFind_cons_ne _ _ _ _ (ne_of_fams ai hnm (by decide))]
    rw [lkFind_cons_ne _ _ _ _ (ne_of_fams ci hnm (by decide))]
    rw [lkFind_cons_ne _ _ _ _ (ne_of_fams si hnm (by decide))]
    rw [lkFind_cons_ne _ _ _ _ (ne_of_fams pzi hnm (by decide))]
    rw [lkFind_cons_found _ _ _ _ rfl ?_]
    apply lkFind_none
    intro p hp
    simp only [List.mem_cons, List.not_mem_nil, or_false] at hp
    rcases hp with rfl
    · exact ne_of_fams phi hnm (by decide)
  unfold getAnyStep
  rw [hlk]
  rfl

theorem getAnyStep_mkObj_country_other (ni : Fin nameAliases.length) (ai : Fin line1Aliases.length)
    (ci : Fin cityAliases.length) (si : Fin stateAliases.length)
    (pzi : Fin postalAliases.length) (cni : Fin countryAliases.length)
    (phi : Fin phoneAliases.length)
    (nv av cv sv pv cov phv : String)
    (nm : String) (hnm : nm ∈ countryAliases) (hne : nm ≠ countryAliases.get cni) :
    getAnyStep (mkObj ni ai ci si pzi cni phi nv av cv sv pv cov phv) nm = none := by
  have hlk : lkFind (mkObj ni ai ci si pzi cni phi nv av cv sv pv cov phv) nm = none := by
    apply lkFind_none
    intro p hp
    unfold mkObj at hp
    simp only [List.mem_cons, List.not_mem_nil, or_false] at hp
    rcases hp with rfl | rfl | rfl | rfl | rfl | rfl | rfl
    · exact ne_of_fams ni hnm (by decide)
    · exact ne_of_fams ai hnm (by decide)
    · exact ne_of_fams ci hnm (by decide)
    · exact ne_of_fams si hnm (by decide)
    · exact ne_of_fams pzi hnm (by decide)
    · exact ne_within cni hnm hne (by decide)
    · exact ne_of_fams phi hnm (by decide)
  unfold getAnyStep
  rw [hlk]

theorem getAny_mkObj_country (ni : Fin nameAliases.length) (ai : Fin line1Aliases.length)
    (ci : Fin cityAliases.length) (si : Fin stateAliases.length)
    (pzi : Fin postalAliases.length) (cni : Fin countryAliases.length)
    (phi : Fin phoneAliases.length)
    (nv av cv sv pv cov phv : String) :
    getAny (mkObj ni ai ci si pzi cni phi nv av cv sv pv cov phv) countryAliases = pyStrip cov :=
  getAny_unique _ (countryAliases.get cni) cov
    (getAnyStep_mkObj_country ni ai ci si pzi cni phi nv av cv sv pv cov phv) countryAliases
    (countryAliases.get_mem cni.1 cni.2)
    (fun nm hnm hne => getAnyStep_mkObj_country_other ni ai ci si pzi cni phi nv av cv sv pv cov phv nm hnm hne)
    (by decide)

theorem getAnyStep_mkObj_phone (ni : Fin nameAliases.length) (ai : Fin line1Aliases.length)
    (ci : Fin cityAliases.length) (si : Fin stateAliases.length)
    (pzi : Fin postalAliases.length) (cni : Fin countryAliases.length)
    (phi : Fin phoneAliases.length)
    (nv av cv sv pv cov phv : String) :
    getAnyStep (mkObj ni ai ci si pzi cni phi nv av cv sv pv cov phv) (phoneAliases.get phi) =
      if pyStrip phv = "" then none else some (pyStrip phv) := by
  have hnm : phoneAliases.get phi ∈ phoneAliases := phoneAliases.get_mem phi.1 phi.2
  have hlk : lkFind (mkObj ni ai ci si pzi cni phi nv av cv sv pv cov phv) (phoneAliases.get phi) = some (Json.str phv) := by
    unfold mkObj
    rw [lkFind_cons_ne _ _ _ _ (ne_of_fams ni hnm (by decide))]
    rw [lkFind_cons_ne _ _ _ _ (ne_of_fams ai hnm (by decide))]
    rw [lkFind_cons_ne _ _ _ _ (ne_of_fams ci hnm (by decide))]
    rw [lkFind_cons_ne _ _ _ _ (ne_of_fams si hnm (by decide))]
    rw [lkFind_cons_ne _ _ _ _ (ne_of_fams pzi hnm (by decide))]
    rw [lkFind_cons_ne _ _ _ _ (ne_of_fams cni hnm (by decide))]
    rw [lkFind_cons_found _ _ _ _ rfl ?_]
    apply lkFind_none
    intro p hp
    simp at hp
  unfold getAnyStep
  rw [hlk]
  rfl

theorem getAnyStep_mkObj_phone_other (ni : Fin nameAliases.length) (ai : Fin line1Aliases.length)
    (ci : Fin cityAliases.length) (si : Fin stateAliases.length)
    (pzi : Fin postalAliases.length) (cni : Fin countryAliases.length)
    (phi : Fin phoneAliases.length)
    (nv av cv sv pv cov phv : String)
    (nm : String) (hnm : nm ∈ phoneAliases) (hne : nm ≠ phoneAliases.get phi) :
    getAnyStep (mkObj ni ai ci si pzi cni phi nv av cv sv pv cov phv) nm = none := by
  have hlk : lkFind (mkObj ni ai ci si pzi cni phi nv av cv sv pv cov phv) nm = none := by
    apply lkFind_none
    intro p hp
    unfold mkObj at hp
    simp only [List.mem_cons, List.not_mem_nil, or_false] at hp
    rcases hp with rfl | rfl | rfl | rfl | rfl | rfl | rfl
    · exact ne_of_fams ni hnm (by decide)
    · exact ne_of_fams ai hnm (by decide)
    · exact ne_of_fams ci hnm (by decide)
    · exact ne_of_fams si hnm (by decide)
    · exact ne_of_fams pzi hnm (by decide)
    · exact ne_of_fams cni hnm (by decide)
    · exact ne_within phi hnm hne (by decide)
  unfold getAnyStep
  rw [hlk]

theorem getAny_mkObj_phone (ni : Fin nameAliases.length) (ai : Fin line1Aliases.length)
    (ci : Fin cityAliases.length) (si : Fin stateAliases.length)
    (pzi : Fin postalAliases.length) (cni : Fin countryAliases.length)
    (phi : Fin phoneAliases.length)
    (nv av cv sv pv cov phv : String) :
    getAny (mkObj ni ai ci si pzi cni phi nv av cv sv pv cov phv) phoneAliases = pyStrip phv :=
  getAny_unique _ (phoneAliases.get phi) phv
    (getAnyStep_mkObj_phone ni ai ci si pzi cni phi nv av cv sv pv cov phv) phoneAliases
    (phoneAliases.get_mem phi.1 phi.2)
    (fun nm hnm hne => getAnyStep_mkObj_phone_other ni ai ci si pzi cni phi nv av cv sv pv cov phv nm hnm hne)
    (by decide)

theorem getAny_mkObj_line2 (ni : Fin nameAliases.length) (ai : Fin line1Aliases.length)
    (ci : Fin cityAliases.length) (si : Fin stateAliases.length)
    (pzi : Fin postalAliases.length) (cni : Fin countryAliases.length)
    (phi : Fin phoneAliases.length)
    (nv av cv sv pv cov phv : String) :
    getAny (mkObj ni ai ci si pzi cni phi nv av cv sv pv cov phv) line2Aliases = "" := by
  apply getAny_all_none
  intro nm hnm
  have hlk : lkFind (mkObj ni ai ci si pzi cni phi nv av cv sv pv cov phv) nm = none := by
    apply lkFind_none
    intro p hp
    unfold mkObj at hp
    simp only [List.mem_cons, List.not_mem_nil, or_false] at hp
    rcases hp with rfl | rfl | rfl | rfl | rfl | rfl | rfl
    · exact ne_of_fams ni hnm (by decide)
    · exact ne_of_fams ai hnm (by decide)
    · exact ne_of_fams ci hnm (by decide)
    · exact ne_of_fams si hnm (by decide)
    · exact ne_of_fams pzi hnm (by decide)
    · exact ne_of_fams cni hnm (by decide)
    · exact ne_of_fams phi hnm (by decide)
  unfold getAnyStep
  rw [hlk]

theorem looks_like_mkObj (ni : Fin nameAliases.length)
    (ai : Fin line1Aliases.length)
    (ci : Fin cityAliases.length) (si : Fin stateAliases.length)
    (pzi : Fin postalAliases.length) (cni : Fin countryAliases.length)
    (phi : Fin phoneAliases.length)
    (nv av cv sv pv cov phv : String) :
    looks_like_dealer_dict (mkObj ni ai ci si pzi cni phi nv av cv sv pv cov phv)
      = true := by
  rw [looks_like_dealer_dict, Bool.and_eq_true, Bool.or_eq_true]
  constructor
  · apply (any_hasKeyLower_iff _ _).mpr
    refine ⟨(nameAliases.get ni, Json.str nv), ?_, ?_⟩
    · unfold mkObj
      exact List.mem_cons_self _ _
    · exact (by decide : nameAliases.map strLower = nameKeyList) ▸
        get_lower_mem nameAliases ni
  · left
    apply (any_hasKeyLower_iff _ _).mpr
    refine ⟨(line1Aliases.get ai, Json.str av), ?_, ?_⟩
    · unfold mkObj
      exact List.mem_cons_of_mem _ (List.mem_cons_self _ _)
    · exact (by decide : line1Aliases.map strLower = addrKeyList) ▸
        get_lower_mem line1Aliases ai

theorem walkJson_mkObj (ni : Fin nameAliases.length)
    (ai : Fin line1Aliases.length)
    (ci : Fin cityAliases.length) (si : Fin stateAliases.length)
    (pzi : Fin postalAliases.length) (cni : Fin countryAliases.length)
    (phi : Fin phoneAliases.length)
    (nv av cv sv pv cov phv : String) :
    walkJson (Json.obj (mkObj ni ai ci si pzi cni phi nv av cv sv pv cov phv))
      = [mkObj ni ai ci si pzi cni phi nv av cv sv pv cov phv] := by
  rw [walkJson,
    if_pos (looks_like_mkObj ni ai ci si pzi cni phi nv av cv sv pv cov phv)]
  have hp : walkPairs (mkObj ni ai ci si pzi cni phi nv av cv sv pv cov phv)
      = [] := by
    unfold mkObj
    simp [walkPairs, walkJson]
  rw [hp, List.append_nil]

theorem extract_mkObj (ni : Fin nameAliases.length)
    (ai : Fin line1Aliases.length)
    (ci : Fin cityAliases.length) (si : Fin stateAliases.length)
    (pzi : Fin postalAliases.length) (cni : Fin countryAliases.length)
    (phi : Fin phoneAliases.length)
    (nv av cv sv pv cov phv : String) :
    extract_dealers_from_json_blobs
        [Json.obj (mkObj ni ai ci si pzi cni phi nv av cv sv pv cov phv)]
      = (extractCanon nv av cv sv pv cov phv).toList := by
  unfold extract_dealers_from_json_blobs
  rw [List.map_cons, List.map_nil,
    walkJson_mkObj ni ai ci si pzi cni phi nv av cv sv pv cov phv]
  have hflat :
      ([[mkObj ni ai ci si pzi cni phi nv av cv sv pv cov phv]] :
        List (List (List (String × Json)))).flatten =
      [mkObj ni ai ci si pzi cni phi nv av cv sv pv cov phv] := by simp
  rw [hflat]
  have hD : extractDealerFromDict
      (mkObj ni ai ci si pzi cni phi nv av cv sv pv cov phv) =
      extractCanon nv av cv sv pv cov phv := by
    simp only [extractDealerFromDict, extractCanon,
      getAny_mkObj_name ni ai ci si pzi cni phi nv av cv sv pv cov phv,
      getAny_mkObj_line1 ni ai ci si pzi cni phi nv av cv sv pv cov phv,
      getAny_mkObj_line2 ni ai ci si pzi cni phi nv av cv sv pv cov phv,
      getAny_mkObj_city ni ai ci si pzi cni phi nv av cv sv pv cov phv,
      getAny_mkObj_state ni ai ci si pzi cni phi nv av cv sv pv cov phv,
      getAny_mkObj_postal ni ai ci si pzi cni phi nv av cv sv pv cov phv,
      getAny_mkObj_country ni ai ci si pzi cni phi nv av cv sv pv cov phv,
      getAny_mkObj_phone ni ai ci si pzi cni phi nv av cv sv pv cov phv]
  cases h : extractCanon nv av cv sv pv cov phv with
  | none => rw [h] at hD; simp [hD]
  | some d => rw [h] at hD; simp [hD]

/-- C6: two JSON objects carrying the same name, address, city, state,
postal, country and phone values but storing them under different accepted
field-name aliases yield the same canonical Dealer records from
`extract_dealers_from_json_blobs`. -/
theorem extract_dealers_alias_invariant
    (n1 n2 : Fin nameAliases.length) (a1 a2 : Fin line1Aliases.length)
    (c1 c2 : Fin cityAliases.length) (s1 s2 : Fin stateAliases.length)
    (p1 p2 : Fin postalAliases.length) (k1 k2 : Fin countryAliases.length)
    (f1 f2 : Fin phoneAliases.length)
    (nv av cv sv pv cov phv : String) :
    extract_dealers_from_json_blobs
        [Json.obj (mkObj n1 a1 c1 s1 p1 k1 f1 nv av cv sv pv cov phv)] =
    extract_dealers_from_json_blobs
        [Json.obj (mkObj n2 a2 c2 s2 p2 k2 f2 nv av cv sv pv cov phv)] := by
  rw [extract_mkObj n1 a1 c1 s1 p1 k1 f1 nv av cv sv pv cov phv,
    extract_mkObj n2 a2 c2 s2 p2 k2 f2 nv av cv sv pv cov phv]

/-! ### Geography normalizer claims -/

/-- C2 counterexample: the code's capture regex requires a comma before the
two-letter code (`,\s*([A-Z]{2})\s+...`).  In this address the Canadian
postal pattern is detected and `ON` is the two-letter province code
immediately preceding the postal code (and a member of the known province
set), yet the function returns `("CA", "")` because no comma precedes
`ON` — contradicting the claim's description of the state extraction. -/
theorem guess_geo_comma_cex :
    prepAddr "128 Main St Toronto ON M5V 2T6"
      = "128 MAIN ST TORONTO ON M5V 2T6" ∧
    caScan none (prepAddr "128 Main St Toronto ON M5V 2T6").toList = true ∧
    "ON" ∈ CA_PROVINCE_CODES ∧
    guess_country_and_state_from_address "128 Main St Toronto ON M5V 2T6"
      = ("CA", "") := by
  decide

/-- C2 (amended): on the upper-cased, whitespace-normalized address, the
Canadian postal pattern is tested first and forces country `CA`; else a
5-digit (optionally +4) pattern forces `US`; else the result is
`("", "")`.  The state/province is the two-letter group of the leftmost
match of comma, optional spaces, two capitals, spaces, then the start of
the postal pattern — kept only when it belongs to the known code set,
else `""`.  The claim's two concrete examples hold. -/
theorem guess_geo_amended :
    guess_country_and_state_from_address
        "195 South Plank Road Newburgh, NY 12550" = ("US", "NY") ∧
    guess_country_and_state_from_address
        "128 Main St Toronto, ON M5V 2T6" = ("CA", "ON") ∧
    ∀ a : String,
      (caScan none (prepAddr a).toList = true →
        (guess_country_and_state_from_address a).1 = "CA" ∧
        ((guess_country_and_state_from_address a).2 = "" ∨
          (guess_country_and_state_from_address a).2 ∈ CA_PROVINCE_CODES)) ∧
      (caScan none (prepAddr a).toList = false →
        usZipScan none (prepAddr a).toList = true →
        (guess_country_and_state_from_address a).1 = "US" ∧
        ((guess_country_and_state_from_address a).2 = "" ∨
          (guess_country_and_state_from_address a).2 ∈ US_STATE_CODES)) ∧
      (caScan none (prepAddr a).toList = false →
        usZipScan none (prepAddr a).toList = false →
        guess_country_and_state_from_address a = ("", "")) ∧
      (∀ p, caScan none (prepAddr a).toList = true →
        provScan (prepAddr a).toList = some p → p ∈ CA_PROVINCE_CODES →
        guess_country_and_state_from_address a = ("CA", p)) ∧
      (∀ p, caScan none (prepAddr a).toList = true →
        provScan (prepAddr a).toList = some p → p ∉ CA_PROVINCE_CODES →
        guess_country_and_state_from_address a = ("CA", "")) ∧
      (∀ st, caScan none (prepAddr a).toList = false →
        usZipScan none (prepAddr a).toList = true →
        usStateScan (prepAddr a).toList = some st → st ∈ US_STATE_CODES →
        guess_country_and_state_from_address a = ("US", st)) ∧
      (∀ st, caScan none (prepAddr a).toList = false →
        usZipScan none (prepAddr a).toList = true →
        usStateScan (prepAddr a).toList = some st → st ∉ US_STATE_CODES →
        guess_country_and_state_from_address a = ("US", "")) ∧
      (caScan none (prepAddr a).toList = true →
        provScan (prepAddr a).toList = none →
        guess_country_and_state_from_address a = ("CA", "")) ∧
      (caScan none (prepAddr a).toList = false →
        usZipScan none (prepAddr a).toList = true →
        usStateScan (prepAddr a).toList = none →
        guess_country_and_state_from_address a = ("US", "")) := by
  refine ⟨by decide, by decide, ?_⟩
  intro a
  refine ⟨?_, ?_, ?_, ?_, ?_, ?_, ?_, ?_, ?_⟩
  · intro hca
    unfold guess_country_and_state_from_address
    rw [if_pos hca]
    cases hpv : provScan (prepAddr a).toList with
    | none => exact ⟨rfl, Or.inl rfl⟩
    | some p =>
      by_cases hp : p ∈ CA_PROVINCE_CODES <;> simp [hp]
  · intro hca hus
    unfold guess_country_and_state_from_address
    rw [if_neg (by simp only [Bool.not_eq_true]; exact hca), if_pos hus]
    cases hst : usStateScan (prepAddr a).toList with
    | none => exact ⟨rfl, Or.inl rfl⟩
    | some st =>
      by_cases hs : st ∈ US_STATE_CODES <;> simp [hs]
  · intro hca hus
    unfold guess_country_and_state_from_address
    rw [if_neg (by simp only [Bool.not_eq_true]; exact hca), if_neg (by simp only [Bool.not_eq_true]; exact hus)]
  · intro p hca hpv hp
    unfold guess_country_and_state_from_address
    rw [if_pos hca, hpv]
    simp [hp]
  · intro p hca hpv hp
    unfold guess_country_and_state_from_address
    rw [if_pos hca, hpv]
    simp [hp]
  · intro st hca hus hst hs
    unfold guess_country_and_state_from_address
    rw [if_neg (by simp only [Bool.not_eq_true]; exact hca), if_pos hus, hst]
    simp [hs]
  · intro st hca hus hst hs
    unfold guess_country_and_state_from_address
    rw [if_neg (by simp only [Bool.not_eq_true]; exact hca), if_pos hus, hst]
    simp [hs]
  · intro hca hpv
    unfold guess_country_and_state_from_address
    rw [if_pos hca, hpv]
  · intro hca hus hst
    unfold guess_country_and_state_from_address
    rw [if_neg (by simp only [Bool.not_eq_true]; exact hca), if_pos hus, hst]

/-- Witness for the amended C2: the hypotheses are discharged at three
concrete addresses — a Canadian capture in the province set, a US address,
and a US address whose comma-anchored capture is absent. -/
theorem guess_geo_amended_witness :
    guess_country_and_state_from_address
        "128 Main St Toronto, ON M5V 2T6" = ("CA", "ON") ∧
    (guess_country_and_state_from_address
        "195 South Plank Road Newburgh, NY 12550").1 = "US" ∧
    guess_country_and_state_from_address "somewhere 99999" = ("US", "") :=
  ⟨(guess_geo_amended.2.2 "128 Main St Toronto, ON M5V 2T6").2.2.2.1 "ON"
      (by decide) (by decide) (by decide),
   ((guess_geo_amended.2.2 "195 South Plank Road Newburgh, NY 12550").2.1
      (by decide) (by decide)).1,
   (guess_geo_amended.2.2 "somewhere 99999").2.2.2.2.2.2.2.2
      (by decide) (by decide) (by decide)⟩

/-! ### Per-URL fetch failures -/

/-- C9: the detail-page parser yields no record on a raised network error
or a non-200 status, and such a per-URL failure only removes that URL's
record from the collected results — the records produced for the other
URLs are unchanged. -/
theorem parse_fetch_failure_isolated (s : Nat) (p : PageModel)
    (rs1 rs2 : List FetchOutcome) (r : FetchOutcome) :
    parse_western_dealer_page FetchOutcome.netError = none ∧
    (s ≠ 200 → parse_western_dealer_page (FetchOutcome.response s p) = none) ∧
    (parse_western_dealer_page r = none →
      collectParsed (rs1 ++ r :: rs2) = collectParsed (rs1 ++ rs2)) := by
  refine ⟨rfl, ?_, ?_⟩
  · intro hs
    simp only [parse_western_dealer_page]
    rw [if_pos hs]
  · intro hr
    unfold collectParsed
    rw [List.filterMap_append, List.filterMap_append, List.filterMap_cons, hr]

/-- Witness for C9: a concrete 404 response and a failing URL in the
middle of a batch. -/
theorem parse_fetch_failure_isolated_witness :
    parse_western_dealer_page
        (FetchOutcome.response 404 ⟨some "Acme", "", "", none⟩) = none ∧
    collectParsed ([] ++ FetchOutcome.netError :: []) =
      collectParsed ([] ++ []) :=
  ⟨(parse_fetch_failure_isolated 404 ⟨some "Acme", "", "", none⟩ [] []
      FetchOutcome.netError).2.1 (by decide),
   (parse_fetch_failure_isolated 404 ⟨some "Acme", "", "", none⟩ [] []
      FetchOutcome.netError).2.2 rfl⟩

/-! ### Resumable cache round-trip -/

/-- C8: checkpointing a finite set of URL strings (writing the array of
the sorted set) and then loading that file yields exactly the set back:
checkpoint followed by load is the identity on finite string sets. -/
theorem cache_roundtrip (S : Finset String) :
    loadCache (checkpointCache S) = S := by
  unfold loadCache checkpointCache
  exact Finset.sort_toFinset _ _

/-! ### The `limit` parameter of `read_postal_codes` -/

/-- C10 counterexample: the claim says truncation to a length-zero prefix
can never happen through the `limit` parameter; but `limit` is a Python
int, `if limit:` is true for every non-zero value, and a negative limit
slices from the end (`out[:-1]` on a one-element list is empty), so both
pipelines can return the empty prefix through `limit = -1`. -/
theorem read_postal_codes_negative_limit_cex :
    Buyers.read_postal_codes [("US", "12550")] (some (-1)) = [] ∧
    Buyers.read_postal_codes [("US", "12550")] none = [("US", "12550")] ∧
    Buyers.read_postal_codes [("US", "12550")] (some 0) = [("US", "12550")] ∧
    Western.read_postal_codes [("US", "12550")] (some (-1)) = [] ∧
    Western.read_postal_codes [("US", "12550")] none = ["12550"] := by
  decide

/-- C10 (amended): `limit = 0` is treated exactly as no limit in both
pipelines (the truncation branch runs only for truthy limits), and no
nonnegative limit can turn a non-empty filtered sequence into an empty
one; only a negative limit (slicing from the end) can do that. -/
theorem read_postal_codes_limit_zero (rows : List (String × String))
    (n : Int) :
    Buyers.read_postal_codes rows (some 0) =
      Buyers.read_postal_codes rows none ∧
    Western.read_postal_codes rows (some 0) =
      Western.read_postal_codes rows none ∧
    (0 ≤ n → (Buyers.read_postal_codes rows (some n) = [] ↔
      Buyers.read_postal_codes rows none = [])) ∧
    (0 ≤ n → (Western.read_postal_codes rows (some n) = [] ↔
      Western.read_postal_codes rows none = [])) := by
  refine ⟨by simp [Buyers.read_postal_codes],
    by simp [Western.read_postal_codes], ?_, ?_⟩
  · intro hn
    by_cases h0 : n = 0
    · simp [Buyers.read_postal_codes, h0]
    · simp only [Buyers.read_postal_codes, if_neg h0, pySlicePre, if_pos hn]
      rw [List.take_eq_nil_iff]
      have : n.toNat ≠ 0 := by omega
      simp [this]
  · intro hn
    by_cases h0 : n = 0
    · simp [Western.read_postal_codes, h0]
    · simp only [Western.read_postal_codes, if_neg h0, pySlicePre, if_pos hn]
      rw [List.take_eq_nil_iff]
      have : n.toNat ≠ 0 := by omega
      simp [this]

/-- Witness for the amended C10 at a concrete row list and limit. -/
theorem read_postal_codes_limit_zero_witness :
    (Buyers.read_postal_codes [("US", "12550")] (some 5) = [] ↔
      Buyers.read_postal_codes [("US", "12550")] none = []) :=
  (read_postal_codes_limit_zero [("US", "12550")] 5).2.2.1 (by decide)
